import Mathlib

/-!
Shallow embedding of `src/accumulator/node_hash.rs` from the rustreexo
accumulator library, together with theorems checking the module's
specification against the code.

Bytes are modelled as `Nat` values (a Rust `u8` is a byte value `< 256`);
64-bit words are `Nat` values reduced modulo `2 ^ 64` wherever the Rust
`u64` arithmetic would wrap.  A Rust `[u8; 32]` digest is a
`Mathlib.Vector Nat 32`.  Byte readers and writers (`std::io::Read` /
`std::io::Write` over in-memory buffers) are modelled as explicit byte
lists: a writer call returns the bytes it emits, a reader call consumes a
prefix of the input list and returns the remaining suffix, failing exactly
when the Rust `read_exact` would fail with `UnexpectedEof`.
-/

/-! ## SHA-512/256, the hash used by `NodeHash::parent_hash`

The `sha2` crate's `Sha512_256` is FIPS 180-4 SHA-512 with the
SHA-512/256 initial value, truncated to the first 256 bits of the final
state.  Everything below is the standard algorithm on `Nat`, with `u64`
wrap-around written as `% 2 ^ 64`. -/

/-- Right rotation of a 64-bit word (`x < 2 ^ 64`). -/
def rotr64 (n x : Nat) : Nat :=
  (x >>> n) + ((x % 2 ^ n) * 2 ^ (64 - n))

/-- Bitwise complement of a 64-bit word. -/
def not64 (x : Nat) : Nat :=
  x ^^^ (2 ^ 64 - 1)

/-- FIPS 180-4 `Ch(e, f, g)`. -/
def shaCh (e f g : Nat) : Nat :=
  (e &&& f) ^^^ (not64 e &&& g)

/-- FIPS 180-4 `Maj(a, b, c)`. -/
def shaMaj (a b c : Nat) : Nat :=
  (a &&& b) ^^^ (a &&& c) ^^^ (b &&& c)

/-- FIPS 180-4 `Σ₀`. -/
def bigSigma0 (x : Nat) : Nat :=
  rotr64 28 x ^^^ rotr64 34 x ^^^ rotr64 39 x

/-- FIPS 180-4 `Σ₁`. -/
def bigSigma1 (x : Nat) : Nat :=
  rotr64 14 x ^^^ rotr64 18 x ^^^ rotr64 41 x

/-- FIPS 180-4 `σ₀`. -/
def smallSigma0 (x : Nat) : Nat :=
  rotr64 1 x ^^^ rotr64 8 x ^^^ (x >>> 7)

/-- FIPS 180-4 `σ₁`. -/
def smallSigma1 (x : Nat) : Nat :=
  rotr64 19 x ^^^ rotr64 61 x ^^^ (x >>> 6)

/-- The 80 SHA-512 round constants of FIPS 180-4 §4.2.3 (the first 64
bits of the fractional parts of the cube roots of the first 80 primes),
written in decimal. -/
def shaK : List Nat := [
  4794697086780616226, 8158064640168781261, 13096744586834688815,
  16840607885511220156, 4131703408338449720, 6480981068601479193,
  10538285296894168987, 12329834152419229976, 15566598209576043074,
  1334009975649890238, 2608012711638119052, 6128411473006802146,
  8268148722764581231, 9286055187155687089, 11230858885718282805,
  13951009754708518548, 16472876342353939154, 17275323862435702243,
  1135362057144423861, 2597628984639134821, 3308224258029322869,
  5365058923640841347, 6679025012923562964, 8573033837759648693,
  10970295158949994411, 12119686244451234320, 12683024718118986047,
  13788192230050041572, 14330467153632333762, 15395433587784984357,
  489312712824947311, 1452737877330783856, 2861767655752347644,
  3322285676063803686, 5560940570517711597, 5996557281743188959,
  7280758554555802590, 8532644243296465576, 9350256976987008742,
  10552545826968843579, 11727347734174303076, 12113106623233404929,
  14000437183269869457, 14369950271660146224, 15101387698204529176,
  15463397548674623760, 17586052441742319658, 1182934255886127544,
  1847814050463011016, 2177327727835720531, 2830643537854262169,
  3796741975233480872, 4115178125766777443, 5681478168544905931,
  6601373596472566643, 7507060721942968483, 8399075790359081724,
  8693463985226723168, 9568029438360202098, 10144078919501101548,
  10430055236837252648, 11840083180663258601, 13761210420658862357,
  14299343276471374635, 14566680578165727644, 15097957966210449927,
  16922976911328602910, 17689382322260857208, 500013540394364858,
  748580250866718886, 1242879168328830382, 1977374033974150939,
  2944078676154940804, 3659926193048069267, 4368137639120453308,
  4836135668995329356, 5532061633213252278, 6448918945643986474,
  6902733635092675308, 7801388544844847127]

/-- The eight working variables of the SHA-512 compression function. -/
structure Sha512State where
  a : Nat
  b : Nat
  c : Nat
  d : Nat
  e : Nat
  f : Nat
  g : Nat
  h : Nat
deriving DecidableEq

/-- The SHA-512/256 initial hash value (FIPS 180-4 §5.3.6.2), written
in decimal. -/
def sha512_256IV : Sha512State :=
  ⟨2463787394917988140, 11481187982095705282, 2563595384472711505,
   10824532655140301501, 10819967247969091555, 13717434660681038226,
   3098927326965381290, 1060366662362279074⟩

/-- One round of the SHA-512 compression function; `wk` is the pair of
the schedule word and the round constant for this round. -/
def shaRound (s : Sha512State) (wk : Nat × Nat) : Sha512State :=
  let t1 := (s.h + bigSigma1 s.e + shaCh s.e s.f s.g + wk.2 + wk.1) % 2 ^ 64
  let t2 := (bigSigma0 s.a + shaMaj s.a s.b s.c) % 2 ^ 64
  ⟨(t1 + t2) % 2 ^ 64, s.a, s.b, s.c, (s.d + t1) % 2 ^ 64, s.e, s.f, s.g⟩

/-- The 80-word message schedule of one 16-word block, most recent word
first (so `w[t-2]` is at index 1, `w[t-7]` at 6, `w[t-15]` at 14 and
`w[t-16]` at 15). -/
def scheduleRev (block : List Nat) : List Nat :=
  (List.range 64).foldl
    (fun acc _ =>
      ((smallSigma1 (acc.getD 1 0) + acc.getD 6 0 +
        smallSigma0 (acc.getD 14 0) + acc.getD 15 0) % 2 ^ 64) :: acc)
    block.reverse

/-- The 80-word message schedule in round order. -/
def schedule (block : List Nat) : List Nat :=
  (scheduleRev block).reverse

/-- Compress one 16-word block into the running state. -/
def compressBlock (st : Sha512State) (block : List Nat) : Sha512State :=
  let s := ((schedule block).zip shaK).foldl shaRound st
  ⟨(st.a + s.a) % 2 ^ 64, (st.b + s.b) % 2 ^ 64, (st.c + s.c) % 2 ^ 64,
   (st.d + s.d) % 2 ^ 64, (st.e + s.e) % 2 ^ 64, (st.f + s.f) % 2 ^ 64,
   (st.g + s.g) % 2 ^ 64, (st.h + s.h) % 2 ^ 64⟩

/-- Compress a word stream, sixteen words (one block) at a time. -/
def compressBlocks : Sha512State → List Nat → Sha512State
  | st, w0 :: w1 :: w2 :: w3 :: w4 :: w5 :: w6 :: w7 ::
        w8 :: w9 :: w10 :: w11 :: w12 :: w13 :: w14 :: w15 :: rest =>
      compressBlocks
        (compressBlock st [w0, w1, w2, w3, w4, w5, w6, w7,
                           w8, w9, w10, w11, w12, w13, w14, w15]) rest
  | st, _ => st

/-- Group a byte stream into big-endian 64-bit words, eight bytes each. -/
def bytesToWords : List Nat → List Nat
  | b0 :: b1 :: b2 :: b3 :: b4 :: b5 :: b6 :: b7 :: rest =>
      (((((((b0 * 256 + b1) * 256 + b2) * 256 + b3) * 256 + b4) * 256 + b5) * 256
          + b6) * 256 + b7) :: bytesToWords rest
  | _ => []

/-- A natural number as `k` big-endian bytes. -/
def natToBytes (n k : Nat) : List Nat :=
  (List.range k).map (fun i => (n >>> (8 * (k - 1 - i))) % 256)

/-- SHA-512 padding: append `0x80`, then zeros, then the bit length as a
128-bit big-endian integer, reaching a multiple of 128 bytes. -/
def shaPad (msg : List Nat) : List Nat :=
  msg ++ [0x80] ++ List.replicate ((128 - ((msg.length + 17) % 128)) % 128) 0 ++
    natToBytes (msg.length * 8) 16

/-- SHA-512/256 of a byte string: SHA-512 with the dedicated IV,
truncated to the first four words (32 bytes) of the final state. -/
def sha512_256 (msg : List Nat) : List Nat :=
  let st := compressBlocks sha512_256IV (bytesToWords (shaPad msg))
  natToBytes st.a 8 ++ natToBytes st.b 8 ++ natToBytes st.c 8 ++ natToBytes st.d 8

theorem natToBytes_length (n k : Nat) : (natToBytes n k).length = k := by
  simp [natToBytes]

theorem sha512_256_length (msg : List Nat) : (sha512_256 msg).length = 32 := by
  simp [sha512_256, natToBytes_length]

/-! ## The `NodeHash` type and its operations -/

/-- A Rust `[u8; 32]` digest. -/
abbrev Digest := Mathlib.Vector Nat 32

/-- The `NodeHash` enum of `node_hash.rs`: `Empty`, `Placeholder`,
`Some([u8; 32])`, declared in that order (the derived `Ord` compares the
declaration order first). `Empty` is the `Default` variant. -/
inductive NodeHash where
  | Empty
  | Placeholder
  | Some (digest : Digest)
deriving DecidableEq

/-- The `Deref` impl: `Some(inner)` dereferences to `inner`, the other
two variants to the all-zero 32-byte array. -/
def NodeHash.byteView : NodeHash → List Nat
  | .Some inner => inner.toList
  | _ => List.replicate 32 0

/-- Rust `write!(f, "{:02x}", byte)`: lowercase hex digits of `byte`,
zero-padded on the left to at least two characters. -/
def format02x (n : Nat) : List Char :=
  let ds := Nat.toDigits 16 n
  List.replicate (2 - ds.length) '0' ++ ds

/-- The `Display` impl: each byte of a `Some` payload as `{:02x}` in
order; the literal `"empty"` for the other two variants. -/
def NodeHash.display : NodeHash → List Char
  | .Some inner => (inner.toList.map format02x).flatten
  | _ => String.toList "empty"

/-- The `Debug` impl, a textual copy of the `Display` impl in the
source. -/
def NodeHash.debugFmt : NodeHash → List Char
  | .Some inner => (inner.toList.map format02x).flatten
  | _ => String.toList "empty"

/-- `NodeHash::is_empty`: `matches!(self, NodeHash::Empty)`. -/
def NodeHash.is_empty : NodeHash → Bool
  | .Empty => true
  | _ => false

/-- `NodeHash::new`. -/
def NodeHash.new (inner : Digest) : NodeHash := .Some inner

/-- `NodeHash::empty`. -/
def NodeHash.empty : NodeHash := .Empty

/-- `NodeHash::placeholder`. -/
def NodeHash.placeholder : NodeHash := .Placeholder

/-- `NodeHash::parent_hash`: SHA-512/256 over the dereferenced bytes of
`left` then `right`, wrapped as `Some`. -/
def NodeHash.parent_hash (left right : NodeHash) : NodeHash :=
  .Some ⟨sha512_256 (left.byteView ++ right.byteView), sha512_256_length _⟩

/-- `NodeHash::write`: the bytes emitted to the writer. -/
def NodeHash.write : NodeHash → List Nat
  | .Empty => [0]
  | .Placeholder => [1]
  | .Some hash => 2 :: hash.toList

/-- The two ways `NodeHash::read` can fail: `read_exact` hitting the end
of the source (`ErrorKind::UnexpectedEof`), or an unknown tag
(`ErrorKind::InvalidData` with a description). -/
inductive IOErrorKind where
  | unexpectedEof
  | invalidData (msg : String)
deriving DecidableEq

/-- `NodeHash::read` over an in-memory byte source: `read_exact` one tag
byte, dispatch on it, and for tag `2` `read_exact` the 32 payload bytes;
returns the decoded value and the unconsumed suffix. -/
def NodeHash.read (bytes : List Nat) : Except IOErrorKind (NodeHash × List Nat) :=
  match bytes with
  | [] => .error .unexpectedEof
  | 0 :: rest => .ok (.Empty, rest)
  | 1 :: rest => .ok (.Placeholder, rest)
  | 2 :: rest =>
      if h : 32 ≤ rest.length then
        .ok (.Some ⟨rest.take 32, by rw [List.length_take]; omega⟩, rest.drop 32)
      else .error .unexpectedEof
  | _ :: _ => .error (.invalidData "unexpected tag for NodeHash")

/-- The hex crate's `FromHexError`. -/
inductive FromHexError where
  | invalidHexCharacter (c : Char) (index : Nat)
  | oddLength
deriving DecidableEq

/-- The hex crate's `val`: the value of one hex digit, `None` for a
non-hex character. -/
def hexVal (c : Char) : Option Nat :=
  if 48 ≤ c.toNat ∧ c.toNat ≤ 57 then some (c.toNat - 48)
  else if 97 ≤ c.toNat ∧ c.toNat ≤ 102 then some (c.toNat - 97 + 10)
  else if 65 ≤ c.toNat ∧ c.toNat ≤ 70 then some (c.toNat - 65 + 10)
  else none

/-- The hex crate's decoding loop: bytes from consecutive digit pairs,
reporting the index of the first invalid character (`i` counts the pairs
already consumed). -/
def hexDecodePairs : Nat → List Char → Except FromHexError (List Nat)
  | _, [] => .ok []
  | i, c1 :: c2 :: rest =>
      match hexVal c1 with
      | none => .error (.invalidHexCharacter c1 (2 * i))
      | some v1 =>
          match hexVal c2 with
          | none => .error (.invalidHexCharacter c2 (2 * i + 1))
          | some v2 =>
              match hexDecodePairs (i + 1) rest with
              | .error e => .error e
              | .ok bs => .ok ((v1 * 16 + v2) :: bs)
  | _, [_] => .error .oddLength

/-- The hex crate's `decode`: odd-length input is rejected up front,
then the digit pairs are decoded. -/
def hexDecode (s : List Char) : Except FromHexError (List Nat) :=
  if s.length % 2 = 1 then .error .oddLength else hexDecodePairs 0 s

/-- Outcome of the `TryFrom<&str>` impls: a value, a returned
`FromHexError`, or the panic of the `.unwrap()` on the fallible
`Vec<u8> -> [u8; 32]` conversion. -/
inductive HexParseResult where
  | ok (h : NodeHash)
  | err (e : FromHexError)
  | panicked
deriving DecidableEq

/-- The `#[cfg(not(test))]` `TryFrom<&str>` impl: `hex::decode` the
string, then `.try_into().unwrap()` the resulting byte vector into a
32-byte array (panicking when the length is not 32). -/
def NodeHash.tryFrom (s : List Char) : HexParseResult :=
  match hexDecode s with
  | .error e => .err e
  | .ok bytes =>
      if h : bytes.length = 32 then .ok (.Some ⟨bytes, h⟩) else .panicked

/-- The `FromStr` impl, which delegates to `TryFrom<&str>` (here the
non-test impl). -/
def NodeHash.from_str (s : List Char) : HexParseResult :=
  NodeHash.tryFrom s

/-- The all-zero string literal compared against in the `#[cfg(test)]`
`TryFrom<&str>` impl. -/
def zeroLiteral : List Char :=
  String.toList "0000000000000000000000000000000000000000000000000000000000000000"

/-- The `#[cfg(test)]` `TryFrom<&str>` impl: the all-zero literal maps
to `Empty`, everything else is hex-decoded as in the non-test impl. -/
def NodeHash.tryFromTest (s : List Char) : HexParseResult :=
  if s = zeroLiteral then .ok .Empty else NodeHash.tryFrom s

/-- The discriminant order of the three variants as declared in the
source, which the derived `PartialOrd`/`Ord` compares first. -/
def NodeHash.discr : NodeHash → Nat
  | .Empty => 0
  | .Placeholder => 1
  | .Some _ => 2

/-- Rust's `Ord` on `[u8; 32]`: unsigned byte-wise lexicographic
comparison. -/
def lexCmpBytes : List Nat → List Nat → Ordering
  | [], [] => .eq
  | [], _ :: _ => .lt
  | _ :: _, [] => .gt
  | a :: l1, b :: l2 =>
      match compare a b with
      | .eq => lexCmpBytes l1 l2
      | o => o

/-- The derived `Ord` for `NodeHash`: discriminants first, payloads
(lexicographically) only when both sides are `Some`. -/
def NodeHash.cmp (x y : NodeHash) : Ordering :=
  match compare x.discr y.discr with
  | .eq =>
      match x, y with
      | .Some a, .Some b => lexCmpBytes a.toList b.toList
      | _, _ => .eq
  | o => o

/-- The byte stream the derived `Hash` impl feeds to the hasher: the
variant's discriminant, then the payload bytes when the variant is
`Some`. -/
def NodeHash.hashFeed : NodeHash → List Nat
  | .Empty => [0]
  | .Placeholder => [1]
  | .Some v => 2 :: v.toList

/-! ## Concrete digests used as witnesses

`h0digest` and `h1digest` are the two digests of the module's own unit
test: the SHA-256 digests of the single bytes `0` and `1`, which
`hash_from_u8` produces for seeds `0` and `1`. -/

/-- The all-zero digest `[0; 32]`. -/
def zeroDigest : Digest := ⟨List.replicate 32 0, by simp⟩

/-- Hex `6e340b9cffb37a989ca544e6bb780a2c78901d3fb33738768511a30617afa01d`. -/
def h0digest : Digest :=
  ⟨[0x6e, 0x34, 0x0b, 0x9c, 0xff, 0xb3, 0x7a, 0x98, 0x9c, 0xa5, 0x44, 0xe6,
    0xbb, 0x78, 0x0a, 0x2c, 0x78, 0x90, 0x1d, 0x3f, 0xb3, 0x37, 0x38, 0x76,
    0x85, 0x11, 0xa3, 0x06, 0x17, 0xaf, 0xa0, 0x1d], rfl⟩

/-- Hex `4bf5122f344554c53bde2ebb8cd2b7e3d1600ad631c385a5d7cce23c7785459a`. -/
def h1digest : Digest :=
  ⟨[0x4b, 0xf5, 0x12, 0x2f, 0x34, 0x45, 0x54, 0xc5, 0x3b, 0xde, 0x2e, 0xbb,
    0x8c, 0xd2, 0xb7, 0xe3, 0xd1, 0x60, 0x0a, 0xd6, 0x31, 0xc3, 0x85, 0xa5,
    0xd7, 0xcc, 0xe2, 0x3c, 0x77, 0x85, 0x45, 0x9a], rfl⟩

set_option maxRecDepth 100000 in
/-- The embedded `sha512_256` and `display` reproduce the reference
vector of the module's `test_parent_hash` unit test. -/
theorem parent_hash_known_vector :
    (NodeHash.parent_hash (.Some h0digest) (.Some h1digest)).display =
      String.toList "02242b37d8e851f1e86f46790298c7097df06893d6226b7c1453c213e91717de" := by
  decide

/-! ## Claim theorems -/

/-- Claim C4: the byte view is a total function; on `Some(a)` it is `a`
itself, and on `Empty` and `Placeholder` it is the all-zero 32-byte
array. -/
theorem C4_byte_view :
    (∀ a : Digest, (NodeHash.new a).byteView = a.toList) ∧
    NodeHash.Empty.byteView = List.replicate 32 0 ∧
    NodeHash.Placeholder.byteView = List.replicate 32 0 :=
  ⟨fun _ => rfl, rfl, rfl⟩

/-- Claim C10: `is_empty` holds exactly on the `Empty` variant; it is
false on `Placeholder` and on `Some([0; 32])`, although both share
`Empty`'s byte view (and `Placeholder` also shares `Empty`'s `Display`
output). -/
theorem C10_is_empty :
    (∀ x : NodeHash, x.is_empty = true ↔ x = .Empty) ∧
    NodeHash.Placeholder.is_empty = false ∧
    (NodeHash.Some zeroDigest).is_empty = false ∧
    NodeHash.Placeholder.byteView = NodeHash.Empty.byteView ∧
    (NodeHash.Some zeroDigest).byteView = NodeHash.Empty.byteView ∧
    NodeHash.Placeholder.display = NodeHash.Empty.display := by
  refine ⟨fun x => ?_, rfl, rfl, rfl, ?_, rfl⟩
  · cases x <;> simp [NodeHash.is_empty]
  · show zeroDigest.toList = List.replicate 32 0
    simp [zeroDigest]

/-- Claim C8: `parent_hash` is total on non-concrete children and
collapses `Empty`, `Placeholder` and `Some([0; 32])` in either child
position into the same all-zero 32-byte contribution, so its output
cannot distinguish the three. -/
theorem C8_collapse (r : NodeHash) :
    NodeHash.parent_hash .Empty r = NodeHash.parent_hash .Placeholder r ∧
    NodeHash.parent_hash .Empty r = NodeHash.parent_hash (.Some zeroDigest) r ∧
    NodeHash.parent_hash r .Empty = NodeHash.parent_hash r .Placeholder ∧
    NodeHash.parent_hash r .Empty = NodeHash.parent_hash r (.Some zeroDigest) := by
  have hz : (NodeHash.Some zeroDigest).byteView = NodeHash.Empty.byteView := by
    show zeroDigest.toList = List.replicate 32 0
    simp [zeroDigest]
  have hp : NodeHash.Placeholder.byteView = NodeHash.Empty.byteView := rfl
  refine ⟨?_, ?_, ?_, ?_⟩ <;> simp [NodeHash.parent_hash, hz, hp]

/-- Claim C2: encoding any `NodeHash` with the binary writer (tag `0`
for `Empty`, `1` for `Placeholder`, `2` plus the 32 digest bytes for
`Some`) and decoding the produced bytes with the binary reader yields
the value back (with any trailing bytes untouched). -/
theorem C2_roundtrip :
    (∀ (x : NodeHash) (rest : List Nat), NodeHash.read (x.write ++ rest) = .ok (x, rest)) ∧
    NodeHash.Empty.write = [0] ∧
    NodeHash.Placeholder.write = [1] ∧
    (∀ v : Digest, (NodeHash.Some v).write = 2 :: v.toList) := by
  refine ⟨fun x rest => ?_, rfl, rfl, fun v => rfl⟩
  cases x with
  | Empty => rfl
  | Placeholder => rfl
  | Some v =>
      show NodeHash.read (2 :: (v.toList ++ rest)) = _
      have hlen : v.toList.length = 32 := v.toList_length
      have h32 : 32 ≤ (v.toList ++ rest).length := by
        rw [List.length_append, hlen]; omega
      simp only [NodeHash.read, h32, dif_pos]
      refine congrArg _ (Prod.ext ?_ ?_)
      · exact congrArg NodeHash.Some (Mathlib.Vector.eq _ _ (by
          simp [Mathlib.Vector.toList_mk, List.take_left' hlen]))
      · simp [List.drop_left' hlen]

/-- Claim C3: the binary decoder rejects a first tag byte outside
`{0, 1, 2}` with an `InvalidData` error describing an unexpected tag,
and fails with the propagated short-read error (never zero-filling) when
the source is too short for the tag byte or for the 32 payload bytes
after tag `2`. -/
theorem C3_decode_errors :
    (∀ (t : Nat) (rest : List Nat), t ≠ 0 → t ≠ 1 → t ≠ 2 →
      NodeHash.read (t :: rest) = .error (.invalidData "unexpected tag for NodeHash")) ∧
    NodeHash.read [] = .error .unexpectedEof ∧
    (∀ rest : List Nat, rest.length < 32 →
      NodeHash.read (2 :: rest) = .error .unexpectedEof) := by
  refine ⟨fun t rest h0 h1 h2 => ?_, rfl, fun rest hlen => ?_⟩
  · obtain ⟨k, rfl⟩ : ∃ k, t = k + 3 := ⟨t - 3, by omega⟩
    rfl
  · simp only [NodeHash.read]
    rw [dif_neg (by omega)]

/-- Witness for C3 at concrete inputs: tag byte `3` is rejected as
corrupt data, and the one-byte stream `[2]` is a short read. -/
theorem C3_decode_errors_witness :
    NodeHash.read [3] = .error (.invalidData "unexpected tag for NodeHash") ∧
    NodeHash.read [2] = .error .unexpectedEof :=
  ⟨C3_decode_errors.1 3 [] (by decide) (by decide) (by decide),
   C3_decode_errors.2.2 [] (by decide)⟩

set_option maxRecDepth 100000 in
/-- Claim C1: `parent_hash(left, right)` is the `Some` variant wrapping
the SHA-512/256 digest of the 64-byte concatenation of `left`'s byte
view and `right`'s byte view; equal byte views give bit-identical
results, and the function is order-sensitive. -/
theorem C1_parent_hash (l r l2 r2 : NodeHash)
    (hl : l.byteView = l2.byteView) (hr : r.byteView = r2.byteView) :
    (∃ d : Digest, NodeHash.parent_hash l r = .Some d ∧
      d.toList = sha512_256 (l.byteView ++ r.byteView)) ∧
    NodeHash.parent_hash l r = NodeHash.parent_hash l2 r2 ∧
    (∃ a b : NodeHash, NodeHash.parent_hash a b ≠ NodeHash.parent_hash b a) := by
  refine ⟨⟨_, rfl, rfl⟩, by simp [NodeHash.parent_hash, hl, hr], ?_⟩
  exact ⟨.Some h0digest, .Some h1digest, by decide⟩

/-- Witness for C1: the hypotheses hold at `Empty` versus `Placeholder`
children (their byte views coincide), and the collapse they force is
visible in the conclusion. -/
theorem C1_parent_hash_witness :
    NodeHash.parent_hash .Empty (.Some h0digest) =
      NodeHash.parent_hash .Placeholder (.Some h0digest) :=
  (C1_parent_hash .Empty (.Some h0digest) .Placeholder (.Some h0digest) rfl rfl).2.1

/-! ## Ordering lemmas -/

theorem lexCmpBytes_eq_iff : ∀ l1 l2 : List Nat, lexCmpBytes l1 l2 = .eq ↔ l1 = l2
  | [], [] => by simp [lexCmpBytes]
  | [], _ :: _ => by simp [lexCmpBytes]
  | _ :: _, [] => by simp [lexCmpBytes]
  | a :: l1, b :: l2 => by
      have ih := lexCmpBytes_eq_iff l1 l2
      simp only [lexCmpBytes]
      cases h : compare a b with
      | eq =>
          have hab : a = b := Nat.compare_eq_eq.mp h
          subst hab
          simpa using ih
      | lt =>
          have hab : a < b := Nat.compare_eq_lt.mp h
          simp only [List.cons.injEq]
          constructor
          · intro hcontra; exact absurd hcontra (by decide)
          · rintro ⟨rfl, -⟩; omega
      | gt =>
          have hab : b < a := Nat.compare_eq_gt.mp h
          simp only [List.cons.injEq]
          constructor
          · intro hcontra; exact absurd hcontra (by decide)
          · rintro ⟨rfl, -⟩; omega

theorem lexCmpBytes_swap : ∀ l1 l2 : List Nat, (lexCmpBytes l1 l2).swap = lexCmpBytes l2 l1
  | [], [] => rfl
  | [], _ :: _ => rfl
  | _ :: _, [] => rfl
  | a :: l1, b :: l2 => by
      have ih := lexCmpBytes_swap l1 l2
      have hba : compare b a = (compare a b).swap := (Nat.compare_swap a b).symm
      simp only [lexCmpBytes, hba]
      cases h : compare a b with
      | eq => simpa using ih
      | lt => rfl
      | gt => rfl

theorem lexCmpBytes_lt_iff :
    ∀ l1 l2 : List Nat, lexCmpBytes l1 l2 = .lt ↔ List.Lex (· < ·) l1 l2
  | [], [] => by simp [lexCmpBytes]
  | [], _ :: _ => by
      simpa [lexCmpBytes] using List.Lex.nil
  | _ :: _, [] => by simp [lexCmpBytes]
  | a :: l1, b :: l2 => by
      have ih := lexCmpBytes_lt_iff l1 l2
      simp only [lexCmpBytes]
      cases h : compare a b with
      | eq =>
          have hab : a = b := Nat.compare_eq_eq.mp h
          subst hab
          constructor
          · intro hh; exact .cons (ih.mp hh)
          · intro hlex
            cases hlex with
            | cons htail => exact ih.mpr htail
            | rel hrel => omega
      | lt =>
          have hab : a < b := Nat.compare_eq_lt.mp h
          exact ⟨fun _ => .rel hab, fun _ => rfl⟩
      | gt =>
          have hab : b < a := Nat.compare_eq_gt.mp h
          constructor
          · intro hcontra; exact Ordering.noConfusion hcontra
          · intro hlex
            cases hlex with
            | cons htail => omega
            | rel hrel => omega

/-- Claim C6: the derived order is total with
`Empty < Placeholder < Some(x)`, two `Some` values compare by unsigned
byte-wise lexicographic comparison of their payloads, and equality and
the derived-hash byte feed follow the same variant-then-payload
discipline. -/
theorem C6_ordering :
    (∀ x y : NodeHash, NodeHash.cmp x y = .eq ↔ x = y) ∧
    (∀ x y : NodeHash, NodeHash.cmp y x = (NodeHash.cmp x y).swap) ∧
    NodeHash.cmp .Empty .Placeholder = .lt ∧
    (∀ v : Digest, NodeHash.cmp .Empty (.Some v) = .lt ∧
      NodeHash.cmp .Placeholder (.Some v) = .lt) ∧
    (∀ a b : Digest, NodeHash.cmp (.Some a) (.Some b) = lexCmpBytes a.toList b.toList ∧
      (NodeHash.cmp (.Some a) (.Some b) = .lt ↔ List.Lex (· < ·) a.toList b.toList)) ∧
    (∀ x y : NodeHash, NodeHash.hashFeed x = NodeHash.hashFeed y ↔ x = y) := by
  refine ⟨fun x y => ?_, fun x y => ?_, rfl, fun v => ⟨rfl, rfl⟩,
    fun a b => ⟨rfl, ?_⟩, fun x y => ?_⟩
  · cases x <;> cases y <;>
      simp [NodeHash.cmp, NodeHash.discr, lexCmpBytes_eq_iff,
        Mathlib.Vector.toList_injective.eq_iff,
        show compare (0 : Nat) 0 = .eq from rfl, show compare (0 : Nat) 1 = .lt from rfl,
        show compare (0 : Nat) 2 = .lt from rfl, show compare (1 : Nat) 0 = .gt from rfl,
        show compare (1 : Nat) 1 = .eq from rfl, show compare (1 : Nat) 2 = .lt from rfl,
        show compare (2 : Nat) 0 = .gt from rfl, show compare (2 : Nat) 1 = .gt from rfl,
        show compare (2 : Nat) 2 = .eq from rfl]
  · cases x with
    | Empty => cases y <;> rfl
    | Placeholder => cases y <;> rfl
    | Some a =>
        cases y with
        | Empty => rfl
        | Placeholder => rfl
        | Some b => exact (lexCmpBytes_swap a.toList b.toList).symm
  · show lexCmpBytes a.toList b.toList = .lt ↔ _
    exact lexCmpBytes_lt_iff _ _
  · cases x <;> cases y <;>
      simp [NodeHash.hashFeed, Mathlib.Vector.toList_injective.eq_iff]

/-! ## Display lemmas -/

/-- The sixteen lowercase hexadecimal digits. -/
def lowercaseHexChars : List Char := String.toList "0123456789abcdef"

set_option maxRecDepth 4000 in
theorem format02x_byte (b : Fin 256) :
    format02x b.val = [Nat.digitChar (b.val / 16), Nat.digitChar (b.val % 16)] ∧
    (∀ c ∈ format02x b.val, c ∈ lowercaseHexChars) := by
  revert b; decide

theorem hexChunks_props : ∀ l : List Nat, (∀ b ∈ l, b < 256) →
    ((l.map format02x).flatten.length = 2 * l.length ∧
      ∀ c ∈ (l.map format02x).flatten, c ∈ lowercaseHexChars)
  | [], _ => by simp
  | b :: l, hb => by
      obtain ⟨ihlen, ihmem⟩ := hexChunks_props l (fun x hx => hb x (by simp [hx]))
      obtain ⟨hfmt, hmem⟩ := format02x_byte ⟨b, hb b (by simp)⟩
      constructor
      · simp [hfmt, ihlen]; omega
      · intro c hc
        simp only [List.map_cons, List.flatten_cons, List.mem_append] at hc
        rcases hc with hc | hc
        · exact hmem c hc
        · exact ihmem c hc

/-- Claim C7: `Display` renders `Some(x)` as exactly 64 lowercase hex
characters — two digits per byte, most significant digit first, no
separators — renders `Empty` and `Placeholder` as the literal string
`"empty"`, and `Debug` formatting coincides with `Display`
everywhere. -/
theorem C7_display (v : Digest) (hv : ∀ b ∈ v.toList, b < 256) :
    (NodeHash.Some v).display.length = 64 ∧
    (∀ c ∈ (NodeHash.Some v).display, c ∈ lowercaseHexChars) ∧
    (NodeHash.Some v).display =
      (v.toList.map (fun b => [Nat.digitChar (b / 16), Nat.digitChar (b % 16)])).flatten ∧
    NodeHash.Empty.display = String.toList "empty" ∧
    NodeHash.Placeholder.display = String.toList "empty" ∧
    (∀ x : NodeHash, x.debugFmt = x.display) := by
  obtain ⟨hlen, hmem⟩ := hexChunks_props v.toList hv
  refine ⟨?_, hmem, ?_, rfl, rfl, fun x => by cases x <;> rfl⟩
  · show ((v.toList.map format02x).flatten).length = 64
    rw [hlen, v.toList_length]
  · show (v.toList.map format02x).flatten = _
    refine congrArg _ (List.map_congr_left fun b hb => ?_)
    exact (format02x_byte ⟨b, hv b hb⟩).1

/-- Witness for C7 at the all-zero digest: 64 characters, all of them
lowercase hex digits. -/
theorem C7_display_witness :
    (NodeHash.Some zeroDigest).display.length = 64 ∧
    ∀ c ∈ (NodeHash.Some zeroDigest).display, c ∈ lowercaseHexChars :=
  ⟨(C7_display zeroDigest (by decide)).1, (C7_display zeroDigest (by decide)).2.1⟩

/-! ## Hex-parsing lemmas -/

theorem hexDecodePairs_all_hex :
    ∀ (s : List Char) (i : Nat), s.length % 2 = 0 →
      (∀ c ∈ s, (hexVal c).isSome) →
      ∃ bs : List Nat, hexDecodePairs i s = .ok bs ∧ bs.length = s.length / 2
  | [], _, _, _ => ⟨[], rfl, rfl⟩
  | [_], _, hlen, _ => by simp at hlen
  | c1 :: c2 :: rest, i, hlen, hhex => by
      obtain ⟨v1, hv1⟩ := Option.isSome_iff_exists.mp (hhex c1 (by simp))
      obtain ⟨v2, hv2⟩ := Option.isSome_iff_exists.mp (hhex c2 (by simp))
      simp only [List.length_cons] at hlen
      obtain ⟨bs, hbs, hbl⟩ := hexDecodePairs_all_hex rest (i + 1)
        (by omega) (fun c hc => hhex c (by simp [hc]))
      refine ⟨(v1 * 16 + v2) :: bs, ?_, ?_⟩
      · simp [hexDecodePairs, hv1, hv2, hbs]
      · simp only [List.length_cons, hbl]; omega

theorem hexDecodePairs_bad_char :
    ∀ (s : List Char) (i : Nat), s.length % 2 = 0 →
      (∃ c ∈ s, hexVal c = none) →
      ∃ c j, hexDecodePairs i s = .error (.invalidHexCharacter c j)
  | [], _, _, hbad => by simp at hbad
  | [_], _, hlen, _ => by simp at hlen
  | c1 :: c2 :: rest, i, hlen, hbad => by
      cases h1 : hexVal c1 with
      | none => exact ⟨c1, 2 * i, by simp [hexDecodePairs, h1]⟩
      | some v1 =>
          cases h2 : hexVal c2 with
          | none => exact ⟨c2, 2 * i + 1, by simp [hexDecodePairs, h1, h2]⟩
          | some v2 =>
              obtain ⟨c, hc, hcnone⟩ := hbad
              have hcrest : c ∈ rest := by
                simp only [List.mem_cons] at hc
                rcases hc with rfl | rfl | hc
                · simp [h1] at hcnone
                · simp [h2] at hcnone
                · exact hc
              simp only [List.length_cons] at hlen
              obtain ⟨c', j, hrec⟩ :=
                hexDecodePairs_bad_char rest (i + 1) (by omega) ⟨c, hcrest, hcnone⟩
              exact ⟨c', j, by simp [hexDecodePairs, h1, h2, hrec]⟩

/-- Claim C5 counterexample: the four-character valid-hex string
`"abcd"` is malformed input (wrong length), yet the generic parse entry
point panics on the `.unwrap()` instead of returning a decode error. -/
theorem C5_hex_parse_counterexample :
    NodeHash.tryFrom (String.toList "abcd") = .panicked := by decide

/-- Claim C5 as amended: a 64-hex-character string parses to `Some` of
the decoded 32 bytes, odd-length input and non-hex characters in
even-length input yield a returned decode error, and `FromStr` agrees
with `TryFrom<&str>` — but a valid-hex even-length input whose length is
not 64 makes the entry point panic on the `.unwrap()` rather than
return an error. -/
theorem C5_hex_parse_amended :
    (∀ s : List Char, s.length = 64 → (∀ c ∈ s, (hexVal c).isSome) →
      ∃ v : Digest, NodeHash.tryFrom s = .ok (.Some v) ∧ hexDecode s = .ok v.toList) ∧
    (∀ s : List Char, s.length % 2 = 1 → NodeHash.tryFrom s = .err .oddLength) ∧
    (∀ s : List Char, s.length % 2 = 0 → (∃ c ∈ s, hexVal c = none) →
      ∃ c j, NodeHash.tryFrom s = .err (.invalidHexCharacter c j)) ∧
    (∀ s : List Char, s.length % 2 = 0 → (∀ c ∈ s, (hexVal c).isSome) →
      s.length ≠ 64 → NodeHash.tryFrom s = .panicked) ∧
    (∀ s : List Char, NodeHash.from_str s = NodeHash.tryFrom s) := by
  refine ⟨fun s hlen hhex => ?_, fun s hodd => ?_, fun s heven hbad => ?_,
    fun s heven hhex hne => ?_, fun s => rfl⟩
  · obtain ⟨bs, hbs, hbl⟩ := hexDecodePairs_all_hex s 0 (by omega) hhex
    have hd : hexDecode s = .ok bs := by
      simp [hexDecode, hlen, hbs]
    have h32 : bs.length = 32 := by omega
    refine ⟨⟨bs, h32⟩, ?_, ?_⟩
    · simp [NodeHash.tryFrom, hd, h32]
    · simpa [Mathlib.Vector.toList_mk] using hd
  · simp [NodeHash.tryFrom, hexDecode, hodd]
  · obtain ⟨c, j, hrec⟩ := hexDecodePairs_bad_char s 0 heven hbad
    have hnotodd : ¬s.length % 2 = 1 := by omega
    exact ⟨c, j, by simp [NodeHash.tryFrom, hexDecode, hnotodd, hrec]⟩
  · obtain ⟨bs, hbs, hbl⟩ := hexDecodePairs_all_hex s 0 heven hhex
    have hnotodd : ¬s.length % 2 = 1 := by omega
    have hne32 : bs.length ≠ 32 := by omega
    simp [NodeHash.tryFrom, hexDecode, hnotodd, hbs, hne32]

/-- Witness for C5's amended claim: the 64-character all-zero string
parses to a `Some` value through the generic (non-test) entry point. -/
theorem C5_hex_parse_amended_witness :
    ∃ v : Digest, NodeHash.tryFrom zeroLiteral = .ok (.Some v) ∧
      hexDecode zeroLiteral = .ok v.toList :=
  C5_hex_parse_amended.1 zeroLiteral (by decide) (by decide)

/-- Claim C9 counterexample: in the test configuration, the
68-character all-zero string is not recognized as `Empty` — it
hex-decodes to 34 bytes and makes the conversion `.unwrap()` panic. -/
theorem C9_zero_literal_counterexample :
    NodeHash.tryFromTest (List.replicate 68 '0') = .panicked := by decide

/-- Claim C9 as amended: the special all-zero literal recognized as
`Empty` by the test-configuration parse entry point is the 64-character
(32-byte-equivalent) zero string, and every other string goes through
the ordinary hex decoding path. -/
theorem C9_zero_literal_amended :
    zeroLiteral.length = 64 ∧
    NodeHash.tryFromTest zeroLiteral = .ok .Empty ∧
    (∀ s : List Char, s ≠ zeroLiteral → NodeHash.tryFromTest s = NodeHash.tryFrom s) := by
  refine ⟨by decide, by simp [NodeHash.tryFromTest], fun s hs => ?_⟩
  simp [NodeHash.tryFromTest, hs]

/-- Witness for C9's amended claim: the two-character string `"ab"`
is not the zero literal, so the test-configuration entry point sends it
through ordinary hex decoding. -/
theorem C9_zero_literal_amended_witness :
    NodeHash.tryFromTest (String.toList "ab") = NodeHash.tryFrom (String.toList "ab") :=
  C9_zero_literal_amended.2.2 (String.toList "ab") (by decide)
